import Mathlib

/-!
Verification of the Whisper-Realtime streaming coordinator
(`audioinsight/processors.py`, `audioinsight/llm/llm_utils.py`) against its
natural-language specification.  Python functions are shallowly embedded as
executable Lean definitions: byte strings become lists, Python floats that
carry exact durations become rationals, dictionaries become association
lists, and the concurrent loops become explicit state-passing folds.
-/

/-- Python int() truncation toward zero on a rational: the truncating integer
division of the reduced numerator by the denominator. -/
def pyTrunc (q : ℚ) : Int :=
  q.num / (q.den : Int)

/-- Two-digit zero padding used by Python timedelta string formatting. -/
def pad2 (n : Nat) : String :=
  if n < 10 then "0" ++ toString n else toString n

/-- Python str(datetime.timedelta(seconds=n)) for integer n: H:MM:SS, with a
day prefix when the value does not fit in a day (floor division semantics). -/
def timedeltaStr (n : Int) : String :=
  let d : Int := n.ediv 86400
  let r : Nat := (n.emod 86400).toNat
  let h : Nat := r / 3600
  let m : Nat := (r % 3600) / 60
  let s : Nat := r % 60
  let hms : String := toString h ++ ":" ++ pad2 m ++ ":" ++ pad2 s
  if d = 0 then hms
  else if d = 1 ∨ d = -1 then toString d ++ " day, " ++ hms
  else toString d ++ " days, " ++ hms

/-- The memoization cache `_cached_timedeltas`: a Python dict from integer
seconds to formatted strings, embedded as an association list. -/
abbrev TimeCache := List (Int × String)

/-- Dictionary lookup on the embedded cache. -/
def cacheLookup (c : TimeCache) (k : Int) : Option String :=
  match c with
  | [] => none
  | (k2, v) :: rest => if k2 = k then some v else cacheLookup rest k

/-- Embedding of `format_time` (processors.py lines 34-49): early return for
zero, cache lookup on the truncated seconds, and insertion bounded by 3600
cache entries. Returns the formatted string together with the updated cache. -/
def format_time (seconds : ℚ) (cache : TimeCache) : String × TimeCache :=
  if seconds = 0 then ("0:00:00", cache)
  else
    let int_seconds := pyTrunc seconds
    match cacheLookup cache int_seconds with
    | some v => (v, cache)
    | none =>
      let result := timedeltaStr int_seconds
      if cache.length < 3600 then (result, cache ++ [(int_seconds, result)])
      else (result, cache)

/-- A cache is well formed when every entry stores exactly the timedelta
string of its key.  The empty initial cache is well formed, and (lemma
below) every cache produced by format_time calls stays well formed. -/
def CacheWF (c : TimeCache) : Prop :=
  ∀ p ∈ c, p.2 = timedeltaStr p.1

theorem cacheWF_nil : CacheWF [] := by
  intro p hp
  cases hp

theorem cacheLookup_eq (c : TimeCache) (k : Int) (v : String)
    (hwf : CacheWF c) (h : cacheLookup c k = some v) : v = timedeltaStr k := by
  induction c with
  | nil => simp [cacheLookup] at h
  | cons p rest ih =>
    simp only [cacheLookup] at h
    by_cases hk : p.1 = k
    · simp [hk] at h
      have := hwf p (by simp)
      rw [← h, this, hk]
    · simp [hk] at h
      exact ih (fun q hq => hwf q (List.mem_cons_of_mem _ hq)) h

theorem timedeltaStr_zero : timedeltaStr 0 = "0:00:00" := by rfl

/-- The string returned by format_time is a pure function of the truncated
argument, for any well-formed cache. -/
theorem format_time_pure (s : ℚ) (c : TimeCache) (hwf : CacheWF c) :
    (format_time s c).1 = timedeltaStr (pyTrunc s) := by
  unfold format_time
  by_cases hz : s = 0
  · simp [hz, pyTrunc, timedeltaStr_zero]
  · simp only [hz, if_false]
    cases hlook : cacheLookup c (pyTrunc s) with
    | none =>
      by_cases hlen : c.length < 3600 <;> simp [hlook, hlen]
    | some v =>
      simp [hlook]
      exact cacheLookup_eq c _ v hwf hlook

/-- Well-formedness of the cache is preserved by every format_time call. -/
theorem format_time_preserves_wf (s : ℚ) (c : TimeCache) (hwf : CacheWF c) :
    CacheWF (format_time s c).2 := by
  unfold format_time
  by_cases hz : s = 0
  · simpa [hz]
  · simp only [hz, if_false]
    cases hlook : cacheLookup c (pyTrunc s) with
    | none =>
      by_cases hlen : c.length < 3600
      · simp only [hlook, hlen, if_true]
        intro p hp
        rcases List.mem_append.1 hp with h1 | h2
        · exact hwf p h1
        · simp at h2
          simp [h2]
      · simpa [hlook, hlen]
    | some v => simpa [hlook]

/-- C9: format_time is deterministic under memoization: two calls whose
arguments truncate to the same integer number of seconds return the identical
string, for any two well-formed caches (empty, partially populated, or at
capacity). -/
theorem format_time_memo_deterministic (s1 s2 : ℚ) (c1 c2 : TimeCache)
    (h1 : CacheWF c1) (h2 : CacheWF c2) (h : pyTrunc s1 = pyTrunc s2) :
    (format_time s1 c1).1 = (format_time s2 c2).1 := by
  rw [format_time_pure s1 c1 h1, format_time_pure s2 c2 h2, h]

/-- Witness for C9 at concrete inputs: 65 and 65.5 seconds agree, across an
empty cache and a cache already holding the entry. -/
theorem format_time_memo_deterministic_witness :
    (format_time 65 []).1 = (format_time (131/2) [(65, timedeltaStr 65)]).1 :=
  format_time_memo_deterministic 65 (131/2) [] [(65, timedeltaStr 65)]
    cacheWF_nil
    (by intro p hp; simp at hp; simp [hp])
    (by norm_num [pyTrunc])

/-- Embedding of `truncate_text` (llm_utils.py lines 51-63).  Python strings
are sequences of code points, embedded as lists of characters; Python slicing
text[: max_length - 3] is List.take. -/
def truncate_text (text : List Char) (max_length : Nat) : List Char :=
  if text.length ≤ max_length then text
  else text.take (max_length - 3) ++ ['.', '.', '.']

/-- C10: for max_length at least 3, truncate_text returns the text unchanged
when it fits, otherwise the first max_length - 3 characters followed by three
dots, and the result never exceeds max_length characters. -/
theorem truncate_text_spec (text : List Char) (m : Nat) (hm : 3 ≤ m) :
    (text.length ≤ m → truncate_text text m = text) ∧
    (m < text.length →
      truncate_text text m = text.take (m - 3) ++ ['.', '.', '.']) ∧
    (truncate_text text m).length ≤ m := by
  unfold truncate_text
  refine ⟨fun h => by simp [h], fun h => by simp [Nat.not_le.2 h], ?_⟩
  by_cases h : text.length ≤ m
  · simp [h]
  · simp only [h, if_false, List.length_append, List.length_take]
    have := Nat.not_le.1 h
    simp only [List.length_cons, List.length_nil]
    omega

/-- Witness for C10 at a concrete input: a 6-character text truncated to 5. -/
theorem truncate_text_spec_witness :
    truncate_text ['a', 'b', 'c', 'd', 'e', 'f'] 5 = ['a', 'b', '.', '.', '.'] ∧
    (truncate_text ['a', 'b', 'c', 'd', 'e', 'f'] 5).length ≤ 5 := by
  have h := truncate_text_spec ['a', 'b', 'c', 'd', 'e', 'f'] 5 (by decide)
  refine ⟨?_, h.2.2⟩
  rw [h.2.1 (by decide)]
  rfl

/-- An entry of the coordinator's `summaries` list (processors.py lines
958-963): wall-clock timestamp, summary string, key points, and the length of
the transcription text the summary covered. -/
structure SummaryEntry where
  timestamp : ℚ
  summary : String
  key_points : List String
  text_length : Nat
deriving DecidableEq, Repr

/-- Embedding of the mutation performed by `_handle_inference_callback`
(processors.py lines 947-973) on the summaries list: build the new entry,
test it against every existing summary string, and append only when no
existing entry carries the same summary. -/
def handle_inference_callback (summaries : List SummaryEntry) (now : ℚ)
    (respSummary : String) (respKeyPoints : List String)
    (transcriptionLen : Nat) : List SummaryEntry :=
  let new_result : SummaryEntry := ⟨now, respSummary, respKeyPoints, transcriptionLen⟩
  let is_duplicate := summaries.any (fun existing => existing.summary == new_result.summary)
  if is_duplicate then summaries else summaries ++ [new_result]

/-- The I4 invariant: no two entries of the summaries list carry the same
summary string. -/
def NoDupSummaries (l : List SummaryEntry) : Prop :=
  l.Pairwise (fun a b => a.summary ≠ b.summary)

theorem any_summary_eq (l : List SummaryEntry) (s : String) :
    (l.any (fun existing => existing.summary == s)) = true ↔
      ∃ e ∈ l, e.summary = s := by
  rw [List.any_eq_true]
  constructor
  · rintro ⟨e, he, hb⟩
    exact ⟨e, he, by simpa using hb⟩
  · rintro ⟨e, he, hb⟩
    exact ⟨e, he, by simpa using hb⟩

/-- C4: the inference callback preserves the no-duplicate invariant on
summaries; an invocation whose summary already appears leaves the list
unchanged; and delivering the identical summary twice from a state not yet
containing it grows the list by exactly one entry. -/
theorem summaries_dedup (l : List SummaryEntry) (t1 t2 : ℚ) (s : String)
    (kp1 kp2 : List String) (n1 n2 : Nat) (hnd : NoDupSummaries l) :
    NoDupSummaries (handle_inference_callback l t1 s kp1 n1) ∧
    ((∃ e ∈ l, e.summary = s) → handle_inference_callback l t1 s kp1 n1 = l) ∧
    ((∀ e ∈ l, e.summary ≠ s) →
      (handle_inference_callback (handle_inference_callback l t1 s kp1 n1) t2 s kp2 n2).length
        = l.length + 1) := by
  refine ⟨?_, ?_, ?_⟩
  · unfold handle_inference_callback
    by_cases hd : (l.any (fun existing => existing.summary == s)) = true
    · simpa [hd]
    · simp only [hd, if_false, Bool.false_eq_true]
      rw [NoDupSummaries, List.pairwise_append]
      refine ⟨hnd, List.pairwise_singleton _ _, ?_⟩
      intro a ha b hb
      simp only [List.mem_singleton] at hb
      subst hb
      rw [any_summary_eq] at hd
      push_neg at hd
      exact hd a ha
  · intro hex
    unfold handle_inference_callback
    simp [(any_summary_eq l s).2 hex]
  · intro hnotin
    have hd : (l.any (fun existing => existing.summary == s)) = false := by
      rw [← Bool.not_eq_true, any_summary_eq]
      push_neg
      exact hnotin
    unfold handle_inference_callback
    simp only [hd, Bool.false_eq_true, if_false]
    have hd2 : ((l ++ [(⟨t1, s, kp1, n1⟩ : SummaryEntry)]).any
        (fun existing => existing.summary == s)) = true := by
      rw [any_summary_eq]
      exact ⟨⟨t1, s, kp1, n1⟩, by simp, rfl⟩
    simp [hd2]

/-- Witness for C4 at concrete inputs: starting from one unrelated summary,
delivering the summary "b" twice yields length exactly 2. -/
theorem summaries_dedup_witness :
    (handle_inference_callback
      (handle_inference_callback [⟨0, "a", [], 1⟩] 1 "b" [] 2) 2 "b" [] 3).length
      = 2 := by
  have h := summaries_dedup [⟨0, "a", [], 1⟩] 1 2 "b" [] [] 2 3
    (List.pairwise_singleton _ _)
  exact h.2.2 (by intro e he; simp at he; simp [he])

/-- A parsed transcript record as produced by the structured parser
(spec section 4.9): normalized text with optional speaker and timestamp
annotations.  The claims never inspect these fields. -/
structure ParsedTranscript where
  parsed_text : String
  speakers : List Int
  timestamps : List ℚ
deriving DecidableEq, Repr

/-- Embedding of the critical section of `parse_and_store_transcript`
(processors.py lines 994-1000): append the new record, point
last_parsed_transcript at it, and keep only the last 50 records.  Python
slicing parsed[-50:] on a list longer than 50 is List.drop (length - 50).
Returns the new collection and the new last_parsed_transcript. -/
def parse_and_store_transcript (parsed_transcripts : List ParsedTranscript)
    (parsed_transcript : ParsedTranscript) :
    List ParsedTranscript × ParsedTranscript :=
  let appended := parsed_transcripts ++ [parsed_transcript]
  let trimmed :=
    if 50 < appended.length then appended.drop (appended.length - 50) else appended
  (trimmed, parsed_transcript)

/-- C5: after every parse_and_store_transcript call the collection holds at
most 50 records, last_parsed_transcript is the record just appended, and that
record is the newest element of the collection. -/
theorem parse_and_store_transcript_bounded (l : List ParsedTranscript)
    (p : ParsedTranscript) :
    (parse_and_store_transcript l p).1.length ≤ 50 ∧
    (parse_and_store_transcript l p).2 = p ∧
    (parse_and_store_transcript l p).1.getLast? = some p := by
  unfold parse_and_store_transcript
  by_cases h : 50 < (l ++ [p]).length
  · simp only [h, if_true]
    refine ⟨?_, by trivial, ?_⟩
    · simp only [List.length_drop]
      omega
    · have hk : (l ++ [p]).length - 50 ≤ l.length := by
        simp only [List.length_append, List.length_singleton]
        omega
      rw [List.drop_append_of_le_length hk]
      exact List.getLast?_concat _
  · simp only [h, if_false]
    refine ⟨?_, by trivial, List.getLast?_concat _⟩
    simp only [List.length_append, List.length_singleton] at h ⊢
    omega

/-- The stop-relevant slice of the coordinator state: the is_stopping flag
and whether the decoder child's stdin has been closed. -/
structure StopState where
  is_stopping : Bool
  stdin_closed : Bool
deriving DecidableEq, Repr

/-- What a single process_audio call did with the pushed bytes. -/
inductive AudioPushAction where
  | ignoredWithWarning
  | stopInitiated
  | forwardedToDecoder
deriving DecidableEq, Repr

/-- Embedding of `AudioProcessor.process_audio` (processors.py lines
1494-1518).  Messages are byte strings, embedded as lists of byte values;
only emptiness is inspected.  While stopping (or with stdin already closed)
the push is ignored with a warning, closing stdin if a redundant empty stop
arrives; an empty message otherwise initiates the stop sequence; any other
message is forwarded to the decoder. -/
def process_audio (st : StopState) (message : List Nat) :
    StopState × AudioPushAction :=
  if st.is_stopping || st.stdin_closed then
    if message.isEmpty && !st.stdin_closed then
      ({ st with stdin_closed := true }, .ignoredWithWarning)
    else (st, .ignoredWithWarning)
  else if message.isEmpty then
    ({ is_stopping := true, stdin_closed := true }, .stopInitiated)
  else (st, .forwardedToDecoder)

/-- C6: pushing an empty byte string from a running state sets is_stopping,
closes the decoder's stdin and returns as the stop action; and every
subsequent push while is_stopping holds is ignored with a warning, never
forwarding audio to the decoder and never clearing is_stopping. -/
theorem process_audio_stop_signal (st : StopState) (message : List Nat)
    (h1 : st.is_stopping = false) (h2 : st.stdin_closed = false) :
    ((process_audio st []).1.is_stopping = true ∧
     (process_audio st []).1.stdin_closed = true ∧
     (process_audio st []).2 = .stopInitiated) ∧
    (∀ st2 : StopState, st2.is_stopping = true →
      (process_audio st2 message).2 = .ignoredWithWarning ∧
      (process_audio st2 message).1.is_stopping = true) := by
  constructor
  · simp [process_audio, h1, h2]
  · intro st2 hstop
    unfold process_audio
    simp only [hstop, Bool.true_or, if_true]
    by_cases hm : message.isEmpty
    · by_cases hc : st2.stdin_closed
      · simp [hm, hc, hstop]
      · simp [hm, hc, hstop]
    · simp [hm, hstop]

/-- Witness for C6 at concrete inputs: the empty push stops a fresh state,
and a later one-byte push into a stopping state is ignored. -/
theorem process_audio_stop_signal_witness :
    (process_audio ⟨false, false⟩ []).2 = .stopInitiated ∧
    (process_audio ⟨true, true⟩ [1]).2 = .ignoredWithWarning := by
  have h := process_audio_stop_signal ⟨false, false⟩ [1] rfl rfl
  exact ⟨h.1.2.2, (h.2 ⟨true, true⟩ rfl).1⟩

/-- Outcome of one blocking stdin write or flush against the decoder child:
it succeeds, times out, or raises a pipe error (BrokenPipeError,
AttributeError or OSError in the source). -/
inductive IOOutcome where
  | ok
  | timedOut
  | pipeError
deriving DecidableEq, Repr

/-- Environment seen by one iteration of the process_audio_chunk retry loop:
whether the decoder child is available (exists, has stdin, has not exited),
whether its stdin is closed, and what the write and flush steps would do. -/
structure ChunkEnv where
  processAvailable : Bool
  stdinClosed : Bool
  writeOutcome : IOOutcome
  flushOutcome : IOOutcome
deriving DecidableEq, Repr

/-- Observable trace of a process_audio_chunk call: how many decoder restarts
it attempted, whether it let an exception escape, and the timeout values (in
seconds) passed to the write and flush waits that were reached. -/
structure ChunkTrace where
  restarts : Nat
  raised : Bool
  writeTimeoutUsed : Option ℚ
  flushTimeoutUsed : Option ℚ
deriving DecidableEq, Repr

/-- Write timeout per retry count (processors.py line 376): 10 s after a
prior retry, 8 s otherwise. -/
def write_timeout (retry_count : Nat) : ℚ :=
  if 0 < retry_count then 10 else 8

/-- Flush timeout per retry count (processors.py line 386): 6 s after a
prior retry, 4 s otherwise. -/
def flush_timeout (retry_count : Nat) : ℚ :=
  if 0 < retry_count then 6 else 4

/-- Embedding of the while loop of `FFmpegProcessor.process_audio_chunk`
(processors.py lines 352-411).  One ChunkEnv is consumed per loop iteration
(a restart may change what the next iteration observes).  All non-returning
paths increment retry_count; the loop guard is retry_count < max_retries.
Timeouts log and return without restarting; pipe errors restart only when
retry_count + 1 is still below max_retries; an unavailable process or a
closed stdin restarts and retries. -/
def process_audio_chunk_loop (envs : List ChunkEnv)
    (retry_count max_retries restarts : Nat) : ChunkTrace :=
  if retry_count < max_retries then
    match envs with
    | [] => ⟨restarts, false, none, none⟩
    | env :: rest =>
      if !env.processAvailable then
        process_audio_chunk_loop rest (retry_count + 1) max_retries (restarts + 1)
      else if env.stdinClosed then
        process_audio_chunk_loop rest (retry_count + 1) max_retries (restarts + 1)
      else
        match env.writeOutcome with
        | .timedOut => ⟨restarts, false, some (write_timeout retry_count), none⟩
        | .pipeError =>
          if retry_count + 1 < max_retries then
            process_audio_chunk_loop rest (retry_count + 1) max_retries (restarts + 1)
          else ⟨restarts, false, some (write_timeout retry_count), none⟩
        | .ok =>
          match env.flushOutcome with
          | .timedOut =>
            ⟨restarts, false, some (write_timeout retry_count), some (flush_timeout retry_count)⟩
          | .pipeError =>
            if retry_count + 1 < max_retries then
              process_audio_chunk_loop rest (retry_count + 1) max_retries (restarts + 1)
            else
              ⟨restarts, false, some (write_timeout retry_count), some (flush_timeout retry_count)⟩
          | .ok =>
            ⟨restarts, false, some (write_timeout retry_count), some (flush_timeout retry_count)⟩
  else ⟨restarts, false, none, none⟩

/-- A push of non-empty audio bytes: the loop entered with retry_count 0 and
max_retries 1 as in the source (line 355). -/
def process_audio_chunk (envs : List ChunkEnv) : ChunkTrace :=
  process_audio_chunk_loop envs 0 1 0

/-- C7 counterexample: the claim says a broken pipe during the write causes
exactly one decoder restart, but with max_retries = 1 the in-loop restart is
unreachable: a healthy-looking process whose write raises a pipe error
produces zero restarts. -/
theorem process_audio_chunk_counterexample :
    ¬ ((process_audio_chunk [⟨true, false, .pipeError, .ok⟩]).restarts = 1) := by
  decide

/-- C7 amended: a push never raises; it attempts exactly one restart when the
decoder process is unavailable or its stdin is closed (detected before the
write), and zero restarts otherwise — in particular a write or flush timeout
or pipe error is swallowed without restarting.  Any write that is reached
uses the 8 s timeout and any flush the 4 s timeout; the 10 s / 6 s
after-retry values are unreachable because max_retries is 1. -/
theorem process_audio_chunk_spec (env : ChunkEnv) :
    (process_audio_chunk [env]).raised = false ∧
    (process_audio_chunk [env]).restarts
      = (if env.processAvailable && !env.stdinClosed then 0 else 1) ∧
    ((process_audio_chunk [env]).writeTimeoutUsed = none ∨
     (process_audio_chunk [env]).writeTimeoutUsed = some 8) ∧
    ((process_audio_chunk [env]).flushTimeoutUsed = none ∨
     (process_audio_chunk [env]).flushTimeoutUsed = some 4) := by
  rcases env with ⟨pa, sc, wo, fo⟩
  cases pa <;> cases sc <;> cases wo <;> cases fo <;>
    simp [process_audio_chunk, process_audio_chunk_loop, write_timeout, flush_timeout]

/-- The string a memoized format_time call returns (lemma format_time_pure):
used for the timestamps of the dummy line the results formatter builds. -/
def format_time_value (q : ℚ) : String :=
  if q = 0 then "0:00:00" else timedeltaStr (pyTrunc q)

/-- A formatted output line (processors.py line 814 and line 1122): speaker
id, text, formatted begin and end times, and the diff figure. -/
structure Line where
  speaker : Int
  text : String
  beg : String
  end_ : String
  diff : ℚ
deriving DecidableEq, Repr

/-- One iteration's input to the emission decision of `results_formatter`
(processors.py lines 1120-1160): the formatted lines and the two buffers
(taken after the Simplified-to-Traditional conversion, which maps the empty
string to itself, so taking converted values commutes with the dummy-line
insertion below), plus the end of the last token for the dummy line. -/
structure FormatterSnapshot where
  lines : List Line
  buffer_transcription : String
  buffer_diarization : String
  lastTokenEnd : ℚ
deriving DecidableEq, Repr

/-- The placeholder line inserted when no lines were produced (processors.py
line 1122). -/
def dummyLine (lastTokenEnd : ℚ) : Line :=
  ⟨0, "", format_time_value 0, format_time_value lastTokenEnd, 0⟩

/-- Lines after the empty-guard of processors.py lines 1121-1122. -/
def finalLinesOf (snap : FormatterSnapshot) : List Line :=
  if snap.lines.isEmpty then [dummyLine snap.lastTokenEnd] else snap.lines

/-- The emission fingerprint (processors.py line 1156): the speaker-text
pairs joined by spaces, then both buffers, pipe-separated. -/
def fingerprint (finalLines : List Line) (bufT bufD : String) : String :=
  String.intercalate " " (finalLines.map (fun l => toString l.speaker ++ " " ++ l.text))
    ++ " | " ++ bufT ++ " | " ++ bufD

/-- The emission decision of processors.py lines 1158-1160: emit when the
fingerprint changed and there is lines or buffer content (Python truthiness:
a non-empty list or a non-empty string).  Returns whether a snapshot was
yielded and the new last_response_content. -/
def emitStep (snap : FormatterSnapshot) (last_response_content : String) :
    Bool × String :=
  let final_lines := finalLinesOf snap
  let response_content :=
    fingerprint final_lines snap.buffer_transcription snap.buffer_diarization
  if response_content ≠ last_response_content ∧
      (final_lines ≠ [] ∨ snap.buffer_transcription ≠ "" ∨
        snap.buffer_diarization ≠ "") then
    (true, response_content)
  else (false, last_response_content)

/-- The fingerprints of the snapshots the results formatter yields over a run,
threading last_response_content through the iterations. -/
def results_formatter_emissions (last : String) :
    List FormatterSnapshot → List String
  | [] => []
  | snap :: rest =>
    let r := emitStep snap last
    if r.1 then r.2 :: results_formatter_emissions r.2 rest
    else results_formatter_emissions r.2 rest

theorem finalLinesOf_ne_nil (snap : FormatterSnapshot) : finalLinesOf snap ≠ [] := by
  unfold finalLinesOf
  intro hc
  by_cases h : snap.lines.isEmpty = true
  · rw [if_pos h] at hc
    simp at hc
  · rw [if_neg h] at hc
    rw [hc] at h
    simp at h

/-- The decision in one step: skipped exactly when the fingerprint is
unchanged (the content conjunct never blocks, because a dummy line is always
inserted when there are no lines). -/
theorem emitStep_false_iff (snap : FormatterSnapshot) (last : String) :
    (emitStep snap last).1 = false ↔
      fingerprint (finalLinesOf snap) snap.buffer_transcription
        snap.buffer_diarization = last := by
  unfold emitStep
  by_cases h : fingerprint (finalLinesOf snap) snap.buffer_transcription
      snap.buffer_diarization = last
  · simp [h]
  · simp [h, finalLinesOf_ne_nil snap]

theorem emitStep_true_snd (snap : FormatterSnapshot) (last : String)
    (h : (emitStep snap last).1 = true) :
    (emitStep snap last).2
      = fingerprint (finalLinesOf snap) snap.buffer_transcription
          snap.buffer_diarization := by
  unfold emitStep at h ⊢
  by_cases hc : fingerprint (finalLinesOf snap) snap.buffer_transcription
      snap.buffer_diarization ≠ last ∧
      (finalLinesOf snap ≠ [] ∨ snap.buffer_transcription ≠ "" ∨
        snap.buffer_diarization ≠ "")
  · simp [hc]
  · simp [hc] at h
  
theorem emitStep_false_snd (snap : FormatterSnapshot) (last : String)
    (h : (emitStep snap last).1 = false) :
    (emitStep snap last).2 = last := by
  unfold emitStep at h ⊢
  by_cases hc : fingerprint (finalLinesOf snap) snap.buffer_transcription
      snap.buffer_diarization ≠ last ∧
      (finalLinesOf snap ≠ [] ∨ snap.buffer_transcription ≠ "" ∨
        snap.buffer_diarization ≠ "")
  · simp [hc] at h
  · simp [hc]

/-- The claim's reformulated skip condition: an emission is skipped only when
the fingerprint equals the previous one AND there is no lines/buffer content. -/
def SkipOnlyWhenUnchangedAndEmpty : Prop :=
  ∀ (snap : FormatterSnapshot) (last : String),
    (emitStep snap last).1 = false →
      fingerprint (finalLinesOf snap) snap.buffer_transcription
        snap.buffer_diarization = last ∧
      finalLinesOf snap = [] ∧ snap.buffer_transcription = "" ∧
      snap.buffer_diarization = ""

/-- C2 counterexample: a snapshot with a non-empty line whose fingerprint
matches the previous emission is skipped even though it carries content, so
the claim's skip characterization is false. -/
theorem results_formatter_skip_counterexample :
    ¬ SkipOnlyWhenUnchangedAndEmpty := by
  intro h
  have hfp := h ⟨[⟨0, "hi", "0:00:00", "0:00:01", 0⟩], "", "", 1⟩ "0 hi |  | "
    (by decide)
  have := hfp.2.1
  simp [finalLinesOf] at this

/-- C2 amended: emissions are suppressed exactly when the fingerprint is
unchanged (lines/buffer content never blocks, because a dummy line is always
inserted), and consequently every two consecutive yielded snapshots have
distinct fingerprints, the first differing from the initial
last_response_content. -/
theorem results_formatter_fingerprint_spec (last : String)
    (snaps : List FormatterSnapshot) :
    List.Chain (· ≠ ·) last (results_formatter_emissions last snaps) ∧
    (∀ (snap : FormatterSnapshot) (l : String),
      (emitStep snap l).1 = false ↔
        fingerprint (finalLinesOf snap) snap.buffer_transcription
          snap.buffer_diarization = l) := by
  refine ⟨?_, fun snap l => emitStep_false_iff snap l⟩
  induction snaps generalizing last with
  | nil => exact List.Chain.nil
  | cons snap rest ih =>
    unfold results_formatter_emissions
    by_cases h : (emitStep snap last).1 = true
    · simp only [h, if_true]
      have hsnd := emitStep_true_snd snap last h
      have hne : (emitStep snap last).2 ≠ last := by
        rw [hsnd]
        intro hc
        rw [← emitStep_false_iff snap last] at hc
        rw [h] at hc
        cases hc
      exact List.Chain.cons (Ne.symm hne) (ih _)
  
    · have hf : (emitStep snap last).1 = false := by
        cases hb : (emitStep snap last).1
        · rfl
        · exact absurd hb h
      simp only [Bool.not_eq_true] at h
      simp only [h, if_false]
      rw [emitStep_false_snd snap last hf]
      exact ih last

/-- An ASR token (spec section 3, timed_objects.ASRToken): start and end
times in seconds, text, speaker id (-1 unassigned), dummy marker. -/
structure ASRToken where
  start : ℚ
  end_ : ℚ
  text : String
  speaker : Int
  is_dummy : Bool
deriving DecidableEq, Repr

/-- The transcription-owned slice of the coordinator shared state mutated by
`update_transcription` (processors.py lines 925-932). -/
structure TranscriptState where
  tokens : List ASRToken
  buffer_transcription : String
  end_buffer : ℚ
  full_transcription : String
  sep : String
deriving DecidableEq, Repr

/-- Embedding of `AudioProcessor.update_transcription` (processors.py lines
925-932): extend the token list and overwrite the buffer, end_buffer,
full_transcription and separator fields. -/
def update_transcription (st : TranscriptState) (new_tokens : List ASRToken)
    (buffer : String) (end_buffer : ℚ) (full_transcription : String)
    (sep : String) : TranscriptState :=
  ⟨st.tokens ++ new_tokens, buffer, end_buffer, full_transcription, sep⟩

/-- The end_buffer value computed by `TranscriptionProcessor.process`
(processors.py line 568): the hypothesis buffer end when truthy (present and
non-zero), else the last new token's end, else 0. -/
def computeEndBuffer (hypEnd : Option ℚ) (new_tokens : List ASRToken) : ℚ :=
  let fallback :=
    match new_tokens.getLast? with
    | some t => t.end_
    | none => 0
  if hypEnd.getD 0 = 0 then fallback else hypEnd.getD 0

/-- The largest end time over a token list (0 when empty). -/
def maxTokenEnd (tokens : List ASRToken) : ℚ :=
  tokens.foldr (fun t m => max t.end_ m) 0

theorem maxTokenEnd_nonneg (l : List ASRToken) : 0 ≤ maxTokenEnd l := by
  induction l with
  | nil => simp [maxTokenEnd]
  | cons t rest ih =>
    simp only [maxTokenEnd, List.foldr_cons] at ih ⊢
    exact le_max_of_le_right ih

theorem maxTokenEnd_append (l1 l2 : List ASRToken) :
    maxTokenEnd (l1 ++ l2) = max (maxTokenEnd l1) (maxTokenEnd l2) := by
  induction l1 with
  | nil =>
    simp only [List.nil_append, maxTokenEnd, List.foldr_nil]
    exact (max_eq_right (maxTokenEnd_nonneg l2)).symm
  | cons t rest ih =>
    simp only [maxTokenEnd, List.foldr_cons, List.cons_append] at ih ⊢
    rw [ih]
    exact (max_assoc _ _ _).symm

theorem maxTokenEnd_le (l : List ASRToken) (e : ℚ) (h0 : 0 ≤ e)
    (h : ∀ t ∈ l, t.end_ ≤ e) : maxTokenEnd l ≤ e := by
  induction l with
  | nil => simpa [maxTokenEnd]
  | cons t rest ih =>
    simp only [maxTokenEnd, List.foldr_cons]
    exact max_le (h t (by simp))
      (ih fun t2 ht2 => h t2 (List.mem_cons_of_mem _ ht2))

/-- The I3 invariant as the claim states it: every end_buffer value written
through update_transcription dominates the largest token end already in the
state. -/
def EndBufferDominatesClaim : Prop :=
  ∀ (st : TranscriptState) (new_tokens : List ASRToken) (buffer : String)
    (hypEnd : Option ℚ) (full sep2 : String),
    maxTokenEnd st.tokens ≤
      (update_transcription st new_tokens buffer
        (computeEndBuffer hypEnd new_tokens) full sep2).end_buffer

/-- C3 counterexample: a state already holding a token that ends at 5 s,
updated with no new tokens and an absent hypothesis end, gets end_buffer 0,
strictly below the largest committed token end. -/
theorem end_buffer_counterexample : ¬ EndBufferDominatesClaim := by
  intro h
  have := h ⟨[⟨0, 5, "a", -1, false⟩], "", 5, "a", " "⟩ [] "" none "a" " "
  norm_num [update_transcription, computeEndBuffer, maxTokenEnd] at this

/-- C3 amended: update_transcription writes exactly the computed value — the
hypothesis end when non-zero, else the last new token's end, else 0 — and
appends the new tokens; the I3 inequality holds after the call when the
non-zero hypothesis end dominates both the committed and the new token ends,
but the code itself does not enforce it (counterexample above). -/
theorem update_transcription_end_buffer (st : TranscriptState)
    (new_tokens : List ASRToken) (buffer full sep2 : String)
    (hypEnd : Option ℚ) :
    ((update_transcription st new_tokens buffer
        (computeEndBuffer hypEnd new_tokens) full sep2).end_buffer
      = (if hypEnd.getD 0 = 0
          then ((new_tokens.getLast?).map (fun t => t.end_)).getD 0
          else hypEnd.getD 0)) ∧
    ((update_transcription st new_tokens buffer
        (computeEndBuffer hypEnd new_tokens) full sep2).tokens
      = st.tokens ++ new_tokens) ∧
    (∀ e : ℚ, hypEnd = some e → e ≠ 0 → maxTokenEnd st.tokens ≤ e →
      (∀ t ∈ new_tokens, t.end_ ≤ e) →
      maxTokenEnd (update_transcription st new_tokens buffer
          (computeEndBuffer hypEnd new_tokens) full sep2).tokens ≤
        (update_transcription st new_tokens buffer
          (computeEndBuffer hypEnd new_tokens) full sep2).end_buffer) := by
  refine ⟨?_, rfl, ?_⟩
  · unfold update_transcription computeEndBuffer
    by_cases h : hypEnd.getD 0 = 0
    · simp only [h, if_true]
      cases hnew : new_tokens.getLast? <;> simp [hnew]
    · simp [h]
  · intro e he hne hmax hall
    have hend : (update_transcription st new_tokens buffer
        (computeEndBuffer hypEnd new_tokens) full sep2).end_buffer = e := by
      unfold update_transcription computeEndBuffer
      simp [he, hne]
    rw [hend]
    show maxTokenEnd (st.tokens ++ new_tokens) ≤ e
    rw [maxTokenEnd_append]
    have h0 : (0 : ℚ) ≤ e := le_trans (by
      unfold maxTokenEnd
      induction st.tokens with
      | nil => simp
      | cons t rest ih => simp only [List.foldr_cons]; exact le_max_of_le_right ih) hmax
    exact max_le hmax (maxTokenEnd_le new_tokens e h0 hall)

/-- Witness for C3 amended at concrete inputs: a 7-second hypothesis end
dominating a 5-second committed token and a 6-second new token preserves I3. -/
theorem update_transcription_end_buffer_witness :
    maxTokenEnd (update_transcription ⟨[⟨0, 5, "a", -1, false⟩], "", 5, "a", " "⟩
        [⟨5, 6, "b", -1, false⟩] "hyp"
        (computeEndBuffer (some 7) [⟨5, 6, "b", -1, false⟩]) "a b" " ").tokens ≤
      (update_transcription ⟨[⟨0, 5, "a", -1, false⟩], "", 5, "a", " "⟩
        [⟨5, 6, "b", -1, false⟩] "hyp"
        (computeEndBuffer (some 7) [⟨5, 6, "b", -1, false⟩]) "a b" " ").end_buffer := by
  have h := update_transcription_end_buffer ⟨[⟨0, 5, "a", -1, false⟩], "", 5, "a", " "⟩
    [⟨5, 6, "b", -1, false⟩] "hyp" "a b" " " (some 7)
  exact h.2.2 7 rfl (by norm_num) (by norm_num [maxTokenEnd])
    (by intro t ht; simp at ht; rw [ht]; norm_num)

/-- Decoder configuration: the feature flags and min_chunk_size (seconds)
read by FFmpegProcessor (processors.py lines 67-76). -/
structure DecoderArgs where
  transcription : Bool
  diarization : Bool
  min_chunk_size : ℚ
deriving DecidableEq, Repr

/-- samples_per_sec = int(16000 * min_chunk_size) (processors.py line 74);
non-negative for the validated min_chunk_size > 0. -/
def samples_per_sec (args : DecoderArgs) : Nat :=
  (pyTrunc (16000 * args.min_chunk_size)).toNat

/-- bytes_per_sec = samples_per_sec * 2 bytes per sample (line 75). -/
def bytes_per_sec (args : DecoderArgs) : Nat :=
  samples_per_sec args * 2

/-- max_bytes_per_sec = 32000 * 5, five seconds of 16 kHz s16le audio
(line 76). -/
def max_bytes_per_sec : Nat := 32000 * 5

/-- min_transcription_buffer = max(bytes_per_sec // 2, 8192) (line 283). -/
def min_transcription_buffer (args : DecoderArgs) : Nat :=
  max (bytes_per_sec args / 2) 8192

/-- diarization_chunk_threshold = bytes_per_sec * 2 (line 318).  The source
compares this byte figure against a sample count. -/
def diarization_chunk_threshold (args : DecoderArgs) : Nat :=
  bytes_per_sec args * 2

/-- The mutable state of the FFmpeg read loop: buffered PCM byte count, the
diarization accumulation (sample counts, as the source accumulates
len(pcm_array)), the diarization queue occupancy, and the two rate-limiting
clocks. -/
structure ReaderState where
  pcm_buffer_length : Nat
  diarization_buffer_size : Nat
  diarization_chunk_buffer : List Nat
  qsize : Nat
  last_queue_warning : ℚ
  last_ffmpeg_activity : ℚ
deriving DecidableEq, Repr

/-- The initial reader state: empty buffers, empty queue, warning clock 0
(processors.py lines 82, 312, 329). -/
def readerInit : ReaderState :=
  ⟨0, 0, [], 0, 0, 0⟩

/-- Outputs of one read-loop iteration: the new state, the sample count of a
frame put on the transcription queue (if any), whether a combined chunk was
put on the diarization queue, and whether the queue-full warning fired. -/
structure ReaderStepOut where
  state : ReaderState
  transcription_frame : Option Nat
  diarization_enqueued : Bool
  warned : Bool
deriving DecidableEq, Repr

/-- Embedding of the diarization branch (processors.py lines 308-336): add
the frame to the accumulation buffer; once the accumulated sample count
reaches the threshold, enqueue the concatenated audio only when the queue
holds fewer than 5 items, otherwise drop it and warn at most once per 10 s;
the accumulation buffer is reset either way.  Returns (state, enqueued,
warned). -/
def diarization_accumulate (args : DecoderArgs) (st1 : ReaderState)
    (frame_samples : Nat) (now : ℚ) : ReaderState × Bool × Bool :=
  let dsize := st1.diarization_buffer_size + frame_samples
  if diarization_chunk_threshold args ≤ dsize then
    if st1.qsize < 5 then
      ({ st1 with diarization_chunk_buffer := [], diarization_buffer_size := 0, qsize := st1.qsize + 1 }, true, false)
    else if 10 < now - st1.last_queue_warning then
      ({ st1 with diarization_chunk_buffer := [], diarization_buffer_size := 0, last_queue_warning := now }, false, true)
    else
      ({ st1 with diarization_chunk_buffer := [], diarization_buffer_size := 0 },
        false, false)
  else
    ({ st1 with diarization_chunk_buffer := st1.diarization_chunk_buffer ++ [frame_samples], diarization_buffer_size := dsize }, false, false)

/-- Embedding of one non-empty read of the FFmpeg stdout loop
(processors.py lines 271-336): record activity, append the chunk to the PCM
buffer; once at least min_transcription_buffer bytes are buffered, take
min(buffered, max_bytes_per_sec) bytes out, convert them to a float frame of
half as many samples, hand it to the transcription queue when transcription
is enabled, and feed the diarization accumulation when diarization is
enabled. -/
def reader_step (args : DecoderArgs) (st : ReaderState) (bytes : Nat)
    (now : ℚ) : ReaderStepOut :=
  let pcm1 := st.pcm_buffer_length + bytes
  if min_transcription_buffer args ≤ pcm1 then
    let bytes_to_process := min pcm1 max_bytes_per_sec
    let frame_samples := bytes_to_process / 2
    let st1 := { st with last_ffmpeg_activity := now, pcm_buffer_length := pcm1 - bytes_to_process }
    let transcription_frame := if args.transcription then some frame_samples else none
    if args.diarization then
      let dres := diarization_accumulate args st1 frame_samples now
      ⟨dres.1, transcription_frame, dres.2.1, dres.2.2⟩
    else
      ⟨st1, transcription_frame, false, false⟩
  else
    ⟨{ st with last_ffmpeg_activity := now, pcm_buffer_length := pcm1 }, none,
      false, false⟩

/-- The idle-watchdog branch of the read loop (processors.py lines 264-269
with a successful restart_ffmpeg, lines 233-235): the PCM buffer is reset and
the activity clock updated; buffered audio is lost. -/
def idle_restart (st : ReaderState) (now : ℚ) : ReaderState :=
  { st with pcm_buffer_length := 0, last_ffmpeg_activity := now }

/-- One observed iteration of the read loop: either the idle watchdog fires,
or stdout.read returns a chunk of the given byte count at the given wall
time (0 bytes means stdout closed). -/
inductive ReaderEvent where
  | idleRestart (now : ℚ)
  | chunk (bytes : Nat) (now : ℚ)
deriving DecidableEq, Repr

/-- The sample counts of the frames delivered toward the transcription queue
by the `read_audio_data` loop (processors.py lines 251-350) over a sequence
of observed iterations.  An empty chunk breaks out of the loop (the SENTINEL
is then enqueued); whatever PCM remains buffered is not delivered. -/
def reader_frames (args : DecoderArgs) (st : ReaderState) :
    List ReaderEvent → List Nat
  | [] => []
  | .idleRestart now :: rest => reader_frames args (idle_restart st now) rest
  | .chunk bytes now :: rest =>
    if bytes = 0 then []
    else
      match (reader_step args st bytes now).transcription_frame with
      | some f => f :: reader_frames args (reader_step args st bytes now).state rest
      | none => reader_frames args (reader_step args st bytes now).state rest

/-- The times at which the read loop logged the diarization queue-full
warning, in order. -/
def reader_warnings (args : DecoderArgs) (st : ReaderState) :
    List ReaderEvent → List ℚ
  | [] => []
  | .idleRestart now :: rest => reader_warnings args (idle_restart st now) rest
  | .chunk bytes now :: rest =>
    if bytes = 0 then []
    else if (reader_step args st bytes now).warned then
      now :: reader_warnings args (reader_step args st bytes now).state rest
    else reader_warnings args (reader_step args st bytes now).state rest

/-- The reader state after the read loop finishes (so in particular the PCM
bytes still buffered and undelivered when stdout closed). -/
def reader_final (args : DecoderArgs) (st : ReaderState) :
    List ReaderEvent → ReaderState
  | [] => st
  | .idleRestart now :: rest => reader_final args (idle_restart st now) rest
  | .chunk bytes now :: rest =>
    if bytes = 0 then st
    else reader_final args (reader_step args st bytes now).state rest

/-- The diarization queue occupancy after each iteration of the read loop,
for stating that the queue never exceeds its bound at any time. -/
def reader_qsizes (args : DecoderArgs) (st : ReaderState) :
    List ReaderEvent → List Nat
  | [] => []
  | .idleRestart now :: rest =>
    (idle_restart st now).qsize :: reader_qsizes args (idle_restart st now) rest
  | .chunk bytes now :: rest =>
    if bytes = 0 then []
    else
      (reader_step args st bytes now).state.qsize ::
        reader_qsizes args (reader_step args st bytes now).state rest

/-- Duration in seconds of a frame of the given sample count at 16 kHz. -/
def frame_duration (samples : Nat) : ℚ := (samples : ℚ) / 16000

/-- The decoder configuration the claims fix: min_chunk_size = 0.5 s, with
the two feature flags left free. -/
def args_half (t d : Bool) : DecoderArgs := ⟨t, d, 1/2⟩

theorem pyTrunc_half : pyTrunc (16000 * (1/2 : ℚ)) = 8000 := by
  have h : (16000 * (1/2 : ℚ)) = 8000 := by norm_num
  rw [h, pyTrunc]
  norm_num

theorem args_half_transcription (t d : Bool) : (args_half t d).transcription = t := rfl

theorem args_half_diarization (t d : Bool) : (args_half t d).diarization = d := rfl

/-- With min_chunk_size = 0.5 s the transcription threshold is 8192 bytes
(0.256 s), because max(16000 // 2, 8192) = 8192. -/
theorem min_transcription_buffer_half (t d : Bool) :
    min_transcription_buffer (args_half t d) = 8192 := by
  show max ((pyTrunc (16000 * (1/2 : ℚ))).toNat * 2 / 2) 8192 = 8192
  rw [pyTrunc_half]
  decide

/-- With min_chunk_size = 0.5 s the diarization accumulation threshold is
32000 (compared against a sample count, hence 2.0 s of audio). -/
theorem diarization_chunk_threshold_half (t d : Bool) :
    diarization_chunk_threshold (args_half t d) = 32000 := by
  show (pyTrunc (16000 * (1/2 : ℚ))).toNat * 2 * 2 = 32000
  rw [pyTrunc_half]
  decide

/-- The C1 claim at a given event sequence: every frame delivered toward the
transcription queue, except a final EOS remainder, lasts at least 0.5 s, and
at end-of-stream no buffered audio is left undelivered. -/
def FrameMinClaimAt (events : List ReaderEvent) : Prop :=
  (∀ f ∈ (reader_frames (args_half true false) readerInit events).dropLast,
    1/2 ≤ frame_duration f) ∧
  (reader_final (args_half true false) readerInit events).pcm_buffer_length = 0

/-- C1 counterexample: two reads of 8192 bytes followed by EOS deliver two
frames of 4096 samples each; the first is not a final remainder yet lasts
only 0.256 s, below the claimed 0.5 s minimum. -/
theorem read_audio_data_counterexample :
    ¬ FrameMinClaimAt [.chunk 8192 0, .chunk 8192 0, .chunk 0 0] := by
  intro h
  have hframes : reader_frames (args_half true false) readerInit
      [.chunk 8192 0, .chunk 8192 0, .chunk 0 0] = [4096, 4096] := by
    simp [reader_frames, reader_step, readerInit, min_transcription_buffer_half,
      args_half_transcription, args_half_diarization, max_bytes_per_sec]
  have hm := h.1 4096 (by rw [hframes]; decide)
  norm_num [frame_duration] at hm

theorem reader_step_frame_half (t d : Bool) (st : ReaderState) (bytes : Nat)
    (now : ℚ) (f : Nat)
    (h : (reader_step (args_half t d) st bytes now).transcription_frame = some f) :
    4096 ≤ f ∧ f ≤ 80000 := by
  simp only [reader_step, min_transcription_buffer_half, max_bytes_per_sec] at h
  split_ifs at h <;> simp_all <;> omega

theorem reader_frames_mem (t d : Bool) (events : List ReaderEvent) :
    ∀ (st : ReaderState) (f : Nat),
      f ∈ reader_frames (args_half t d) st events → 4096 ≤ f ∧ f ≤ 80000 := by
  induction events with
  | nil =>
    intro st f hf
    rw [reader_frames] at hf
    cases hf
  | cons e rest ih =>
    intro st f hf
    cases e with
    | idleRestart now =>
      rw [reader_frames] at hf
      exact ih _ f hf
    | chunk bytes now =>
      by_cases hb : bytes = 0
      · rw [reader_frames, if_pos hb] at hf
        cases hf
      · rw [reader_frames, if_neg hb] at hf
        cases ho : (reader_step (args_half t d) st bytes now).transcription_frame with
        | none =>
          rw [ho] at hf
          exact ih _ f hf
        | some g =>
          rw [ho] at hf
          rcases List.mem_cons.1 hf with h1 | h2
          · subst h1
            exact reader_step_frame_half t d st bytes now f ho
          · exact ih _ f h2

theorem reader_frames_eos (args : DecoderArgs) (events : List ReaderEvent) :
    ∀ st : ReaderState,
      reader_frames args st (events ++ [.chunk 0 0])
        = reader_frames args st events := by
  induction events with
  | nil =>
    intro st
    simp only [List.nil_append]
    rw [reader_frames]
    rw [reader_frames]
    rw [if_pos rfl]
  | cons e rest ih =>
    intro st
    cases e with
    | idleRestart now =>
      rw [List.cons_append, reader_frames, reader_frames, ih]
    | chunk bytes now =>
      by_cases hb : bytes = 0
      · subst hb
        rw [List.cons_append, reader_frames, reader_frames, if_pos rfl, if_pos rfl]
      · rw [List.cons_append, reader_frames, reader_frames, if_neg hb, if_neg hb, ih]

/-- C1 amended: with min_chunk_size = 0.5 s, every frame delivered toward the
transcription queue holds between 4096 and 80000 samples — at least 0.256 s
(not 0.5 s) and at most 5 s — from any reader state; and end-of-stream
delivers no additional frame: audio still buffered below the threshold when
stdout closes is dropped, not delivered. -/
theorem read_audio_data_frame_bounds (t d : Bool) (st : ReaderState)
    (events : List ReaderEvent) :
    (∀ f ∈ reader_frames (args_half t d) st events,
      4096 ≤ f ∧ f ≤ 80000 ∧
      32/125 ≤ frame_duration f ∧ frame_duration f ≤ 5) ∧
    reader_frames (args_half t d) st (events ++ [.chunk 0 0])
      = reader_frames (args_half t d) st events := by
  refine ⟨fun f hf => ?_, reader_frames_eos _ events st⟩
  obtain ⟨h1, h2⟩ := reader_frames_mem t d events st f hf
  refine ⟨h1, h2, ?_, ?_⟩
  · show (32 : ℚ)/125 ≤ (f : ℚ) / 16000
    rw [show (32 : ℚ)/125 = 4096/16000 by norm_num]
    apply div_le_div_of_nonneg_right ?_ (by norm_num)
    exact_mod_cast h1
  · show (f : ℚ) / 16000 ≤ 5
    rw [div_le_iff₀ (by norm_num)]
    calc (f : ℚ) ≤ 80000 := by exact_mod_cast h2
    _ ≤ 5 * 16000 := by norm_num

theorem diarization_accumulate_qsize (args : DecoderArgs) (st1 : ReaderState)
    (fs : Nat) (now : ℚ) (h : st1.qsize ≤ 5) :
    (diarization_accumulate args st1 fs now).1.qsize ≤ 5 := by
  simp only [diarization_accumulate]
  split_ifs with h1 h2 h3
  · simp only []
    show st1.qsize + 1 ≤ 5
    omega
  · exact h
  · exact h
  · exact h

theorem diarization_accumulate_enqueued (args : DecoderArgs) (st1 : ReaderState)
    (fs : Nat) (now : ℚ)
    (h : (diarization_accumulate args st1 fs now).2.1 = true) : st1.qsize < 5 := by
  simp only [diarization_accumulate] at h
  split_ifs at h with h1 h2 h3
  exact h2

theorem diarization_accumulate_warned (args : DecoderArgs) (st1 : ReaderState)
    (fs : Nat) (now : ℚ) :
    ((diarization_accumulate args st1 fs now).2.2 = true →
      10 < now - st1.last_queue_warning ∧
      (diarization_accumulate args st1 fs now).1.last_queue_warning = now) ∧
    ((diarization_accumulate args st1 fs now).2.2 = false →
      (diarization_accumulate args st1 fs now).1.last_queue_warning
        = st1.last_queue_warning) := by
  simp only [diarization_accumulate]
  split_ifs with h1 h2 h3
  · exact ⟨fun hc => by simp at hc, fun _ => rfl⟩
  · exact ⟨fun _ => ⟨h3, rfl⟩, fun hc => by simp at hc⟩
  · exact ⟨fun hc => by simp at hc, fun _ => rfl⟩
  · exact ⟨fun hc => by simp at hc, fun _ => rfl⟩

theorem reader_step_qsize (args : DecoderArgs) (st : ReaderState) (bytes : Nat)
    (now : ℚ) (h : st.qsize ≤ 5) :
    (reader_step args st bytes now).state.qsize ≤ 5 := by
  simp only [reader_step]
  split_ifs <;>
    first
      | exact diarization_accumulate_qsize args _ _ now h
      | exact h

theorem reader_step_enqueued (args : DecoderArgs) (st : ReaderState) (bytes : Nat)
    (now : ℚ)
    (h : (reader_step args st bytes now).diarization_enqueued = true) :
    st.qsize < 5 := by
  simp only [reader_step] at h
  split_ifs at h <;>
    (have h5 := diarization_accumulate_enqueued args _ _ now h; exact h5)

theorem reader_step_warned (args : DecoderArgs) (st : ReaderState) (bytes : Nat)
    (now : ℚ) :
    ((reader_step args st bytes now).warned = true →
      10 < now - st.last_queue_warning ∧
      (reader_step args st bytes now).state.last_queue_warning = now) ∧
    ((reader_step args st bytes now).warned = false →
      (reader_step args st bytes now).state.last_queue_warning
        = st.last_queue_warning) := by
  simp only [reader_step]
  split_ifs <;>
    first
      | exact diarization_accumulate_warned args _ _ now
      | exact ⟨fun hc => by simp at hc, fun _ => rfl⟩

theorem reader_qsizes_le (args : DecoderArgs) (events : List ReaderEvent) :
    ∀ st : ReaderState, st.qsize ≤ 5 →
      ∀ q ∈ reader_qsizes args st events, q ≤ 5 := by
  induction events with
  | nil =>
    intro st h q hq
    rw [reader_qsizes] at hq
    cases hq
  | cons e rest ih =>
    intro st h q hq
    cases e with
    | idleRestart now =>
      rw [reader_qsizes] at hq
      rcases List.mem_cons.1 hq with h1 | h2
      · subst h1
        exact h
      · exact ih (idle_restart st now) h q h2
    | chunk bytes now =>
      by_cases hb : bytes = 0
      · rw [reader_qsizes, if_pos hb] at hq
        cases hq
      · rw [reader_qsizes, if_neg hb] at hq
        rcases List.mem_cons.1 hq with h1 | h2
        · subst h1
          exact reader_step_qsize args st bytes now h
        · exact ih _ (reader_step_qsize args st bytes now h) q h2

theorem reader_warnings_chain (args : DecoderArgs) (events : List ReaderEvent) :
    ∀ st : ReaderState,
      List.Chain (fun a b => 10 < b - a) st.last_queue_warning
        (reader_warnings args st events) := by
  induction events with
  | nil =>
    intro st
    rw [reader_warnings]
    exact List.Chain.nil
  | cons e rest ih =>
    intro st
    cases e with
    | idleRestart now =>
      rw [reader_warnings]
      exact ih (idle_restart st now)
    | chunk bytes now =>
      by_cases hb : bytes = 0
      · rw [reader_warnings, if_pos hb]
        exact List.Chain.nil
      · rw [reader_warnings, if_neg hb]
        by_cases hw : (reader_step args st bytes now).warned = true
        · rw [if_pos hw]
          have h1 := (reader_step_warned args st bytes now).1 hw
          refine List.Chain.cons h1.1 ?_
          have h2 := ih (reader_step args st bytes now).state
          rw [h1.2] at h2
          exact h2
        · rw [if_neg hw]
          have hwf : (reader_step args st bytes now).warned = false := by
            revert hw
            cases (reader_step args st bytes now).warned <;> simp
          have h2 := (reader_step_warned args st bytes now).2 hwf
          have h3 := ih (reader_step args st bytes now).state
          rw [h2] at h3
          exact h3

/-- C8: the diarization queue never exceeds 5 pending items at any point of
the read loop (from any start occupancy of at most 5); a chunk is enqueued
only when the queue currently holds fewer than 5 items (otherwise the
accumulated audio is dropped); and any two consecutive queue-full warnings
are separated by more than 10 seconds. -/
theorem diarization_queue_bounded (args : DecoderArgs) (st : ReaderState)
    (events : List ReaderEvent) (h5 : st.qsize ≤ 5) :
    (∀ q ∈ reader_qsizes args st events, q ≤ 5) ∧
    (∀ (st2 : ReaderState) (bytes : Nat) (now : ℚ),
      (reader_step args st2 bytes now).diarization_enqueued = true →
        st2.qsize < 5) ∧
    List.Chain (fun a b => 10 < b - a) st.last_queue_warning
      (reader_warnings args st events) :=
  ⟨reader_qsizes_le args events st h5,
   fun st2 bytes now h => reader_step_enqueued args st2 bytes now h,
   reader_warnings_chain args events st⟩

/-- Witness for C8 at concrete inputs: two full-size reads from the initial
state keep every intermediate queue occupancy at most 5 and the warning times
rate-limited. -/
theorem diarization_queue_bounded_witness :
    (∀ q ∈ reader_qsizes (args_half true true) readerInit
        [.chunk 160000 0, .chunk 160000 1], q ≤ 5) ∧
    List.Chain (fun a b => 10 < b - a) readerInit.last_queue_warning
      (reader_warnings (args_half true true) readerInit
        [.chunk 160000 0, .chunk 160000 1]) := by
  have h := diarization_queue_bounded (args_half true true) readerInit
    [.chunk 160000 0, .chunk 160000 1] (by decide)
  exact ⟨h.1, h.2.2⟩

/-- Witness for the C1 amended bounds at a concrete input: a single 8192-byte
read delivers one frame of 4096 samples, within the proved bounds. -/
theorem read_audio_data_frame_bounds_witness :
    (4096 ≤ 4096 ∧ 4096 ≤ 80000 ∧
      32/125 ≤ frame_duration 4096 ∧ frame_duration 4096 ≤ 5) ∧
    reader_frames (args_half true false) readerInit
      [.chunk 8192 0, .chunk 0 0] = [4096] := by
  have hframes : reader_frames (args_half true false) readerInit
      [.chunk 8192 0, .chunk 0 0] = [4096] := by
    simp [reader_frames, reader_step, readerInit, min_transcription_buffer_half,
      args_half_transcription, args_half_diarization, max_bytes_per_sec]
  refine ⟨?_, hframes⟩
  exact (read_audio_data_frame_bounds true false readerInit
    [.chunk 8192 0, .chunk 0 0]).1 4096 (by rw [hframes]; decide)
